import Mathlib

/-!
Verification of the concurrency/bridge fragment of this repository against its
natural-language specification.  The development shallowly embeds the two
source files:

* `localstack/services/ec2/ec2_listener.py` — the response patcher
  `fix_creation_date` (a `re.sub` rewrite of `creationTimestamp` fields plus a
  `Content-Length` update);
* `localstack/utils/async_utils.py` — `AdaptiveThreadPool.submit` /
  `has_idle_threads`, `AsyncThread.run_func` / `AsyncThread.stop`,
  `get_named_event_loop`, and `receive_from_queue`.

Python strings are embedded as `List Char`, dictionaries as association
lists, and the stateful thread machinery as explicit state-transition
functions.  Machine integers play no role in this fragment.
-/

namespace Localstack

/-! ## The `creationTimestamp` regular expression

`fix_creation_date` applies

    re.sub(r'>\s*([0-9-]+) ([0-9:.]+)Z?\s*</creationTimestamp>',
           r'>\1T\2Z</creationTimestamp>', content, flags=re.DOTALL | re.MULTILINE)

The flags only alter `.`/`^`/`$`, none of which occur in the pattern.  Every
character class of the pattern is disjoint from the character that must follow
its run (whitespace vs. `[0-9-]`, `[0-9-]` vs. `' '`, `[0-9:.]` vs. `Z`/`<`,
whitespace vs. `<`), so the backtracking regex engine's behaviour on this
pattern coincides with a deterministic greedy parse, embedded below. -/

/-- Python `\s` on a `str` (`Py_UNICODE_ISSPACE`): the Unicode whitespace
code points recognised by CPython's `re` module. -/
def pyWs (c : Char) : Bool :=
  c.toNat ∈ [9, 10, 11, 12, 13, 28, 29, 30, 31, 32, 0x85, 0xa0, 0x1680,
    0x2000, 0x2001, 0x2002, 0x2003, 0x2004, 0x2005, 0x2006, 0x2007, 0x2008,
    0x2009, 0x200a, 0x2028, 0x2029, 0x202f, 0x205f, 0x3000]

/-- The character class `[0-9-]` (first capture group, the date). -/
def isDateChar (c : Char) : Bool := c.isDigit || c == '-'

/-- The character class `[0-9:.]` (second capture group, the time). -/
def isTimeChar (c : Char) : Bool := c.isDigit || c == ':' || c == '.'

/-- The literal closing tag `</creationTimestamp>` of the pattern. -/
def tagChars : List Char :=
  ['<', '/', 'c', 'r', 'e', 'a', 't', 'i', 'o', 'n', 'T', 'i', 'm', 'e',
   's', 't', 'a', 'm', 'p', '>']

/-- Attempt to match the regex at the head of `s`.  On success, return the two
capture groups (date, time) and the total length of the match.  This is the
deterministic greedy parse of `>\s*([0-9-]+) ([0-9:.]+)Z?\s*</creationTimestamp>`,
which agrees with Python's backtracking semantics on this pattern because
neighbouring elements of the pattern have disjoint character sets. -/
def matchAt (s : List Char) : Option (List Char × List Char × Nat) :=
  match s with
  | [] => none
  | c0 :: rest =>
    if c0 = '>' then
      let ws1 := rest.takeWhile pyWs
      let r1 := rest.dropWhile pyWs
      let d := r1.takeWhile isDateChar
      let r2 := r1.dropWhile isDateChar
      if d.isEmpty then none else
      match r2 with
      | [] => none
      | c2 :: r3 =>
        if c2 = ' ' then
          let t := r3.takeWhile isTimeChar
          let r4 := r3.dropWhile isTimeChar
          if t.isEmpty then none else
          let zLen : Nat :=
            match r4 with
            | c4 :: _ => if c4 = 'Z' then 1 else 0
            | [] => 0
          let r5 := r4.drop zLen
          let ws2 := r5.takeWhile pyWs
          let r6 := r5.dropWhile pyWs
          if tagChars.isPrefixOf r6 then
            some (d, t,
              1 + ws1.length + d.length + 1 + t.length + zLen + ws2.length
                + tagChars.length)
          else none
        else none
    else none

/-- The scan of `re.sub`, structurally recursive on a fuel bounding the
number of characters still to inspect: at a match, emit the replacement
`>\1T\2Z</creationTimestamp>` and resume after the matched span; otherwise
copy one character.  Every step consumes at least one character, so a fuel of
`s.length` never runs out. -/
def subAllAux : Nat → List Char → List Char
  | 0, s => s
  | _ + 1, [] => []
  | fuel + 1, c :: rest =>
    match matchAt (c :: rest) with
    | some (d, t, n) =>
        '>' :: (d ++ 'T' :: t ++ 'Z' :: tagChars) ++ subAllAux fuel (rest.drop (n - 1))
    | none => c :: subAllAux fuel rest

/-- The embedding of `re.sub` with the replacement template `>\1T\2Z</creationTimestamp>`:
scan left to right over the whole content. -/
def subAll (s : List Char) : List Char := subAllAux s.length s

/-- Whether the regex matches somewhere in `s` (at any start position). -/
def hasMatch : List Char → Bool
  | [] => false
  | c :: rest => (matchAt (c :: rest)).isSome || hasMatch rest

/-! ## The response object and `fix_creation_date`

`response._content` arrives as a byte buffer and is decoded by
`to_str` (from `localstack.utils.common`, outside this fragment's files; the
specification describes it as "attempt to decode as text; on decode failure
return the buffer unmodified").  The claims below all concern responses whose
content decodes successfully, so the response is embedded post-decode, its
content a `List Char`.  Note that after the rewrite the code stores the
*string* back into `_content` and sets `Content-Length` to `str(len(...))`,
Python's `len` of a string, i.e. its number of characters. -/

structure Response where
  _content : List Char
  headers : List (String × String)
deriving DecidableEq

/-- Association-list update, the embedding of `dict.__setitem__`. -/
def setAssoc {α : Type} : List (String × α) → String → α → List (String × α)
  | [], k, v => [(k, v)]
  | (k', v') :: rest, k, v =>
    if k' = k then (k, v) :: rest else (k', v') :: setAssoc rest k v

/-- Association-list lookup, the embedding of `dict.get` / `dict.__getitem__`. -/
def lookupAssoc {α : Type} : List (String × α) → String → Option α
  | [], _ => none
  | (k', v') :: rest, k => if k' = k then some v' else lookupAssoc rest k

/-- The function `fix_creation_date` (ec2_listener.py lines 9–17) on a successfully decoded
response: rewrite the content with the substitution and set the
`Content-Length` header to `str(len(content))`. -/
def fix_creation_date (r : Response) : Response :=
  let newContent := subAll r._content
  { _content := newContent,
    headers := setAssoc r.headers "Content-Length" (toString newContent.length) }

/-! ## UTF-8 byte lengths

The specification speaks of the *byte length* of the rewritten content.  The
content is a decoded text string; its byte length is the length of its UTF-8
encoding, defined here character by character. -/

/-- The UTF-8 encoding of one character (code point), as its list of bytes. -/
def charBytes (c : Char) : List Nat :=
  let n := c.toNat
  if n < 0x80 then [n]
  else if n < 0x800 then [0xC0 + n / 64, 0x80 + n % 64]
  else if n < 0x10000 then
    [0xE0 + n / 4096, 0x80 + n / 64 % 64, 0x80 + n % 64]
  else
    [0xF0 + n / 262144, 0x80 + n / 4096 % 64, 0x80 + n / 64 % 64, 0x80 + n % 64]

/-- The UTF-8 encoding of a string. -/
def utf8Encode (l : List Char) : List Nat := l.flatMap charBytes

/-- The byte length of a string's UTF-8 encoding. -/
def utf8Len (l : List Char) : Nat := (utf8Encode l).length

/-! ## The shape of a well-formed date and time

The claims describe the matched content as "a date, a single space, and a
time optionally carrying fractional seconds and/or a trailing `Z`", and the
rewritten field as matching `YYYY-MM-DDTHH:MM:SS[.ffffff]Z`. -/

/-- Format `YYYY-MM-DD`: four digits, `-`, two digits, `-`, two digits. -/
def isDateStr (l : List Char) : Bool :=
  match l with
  | [y1, y2, y3, y4, h1, m1, m2, h2, d1, d2] =>
    y1.isDigit && y2.isDigit && y3.isDigit && y4.isDigit && (h1 == '-')
      && m1.isDigit && m2.isDigit && (h2 == '-') && d1.isDigit && d2.isDigit
  | _ => false

/-- The optional fractional-seconds part: empty, or `.` followed by one to six
digits. -/
def fracOk : List Char → Bool
  | [] => true
  | '.' :: ds => !ds.isEmpty && ds.length ≤ 6 && ds.all Char.isDigit
  | _ => false

/-- Format `HH:MM:SS[.ffffff]`: two digits, `:`, two digits, `:`, two digits, then an
optional fractional part. -/
def isTimeStr (l : List Char) : Bool :=
  match l with
  | h1 :: h2 :: c1 :: m1 :: m2 :: c2 :: s1 :: s2 :: rest =>
    h1.isDigit && h2.isDigit && (c1 == ':') && m1.isDigit && m2.isDigit
      && (c2 == ':') && s1.isDigit && s2.isDigit && fracOk rest
  | _ => false

/-- The target format `YYYY-MM-DDTHH:MM:SS[.ffffff]Z`: a date, the letter `T`,
a time, and exactly one trailing `Z`. -/
def isIsoTimestamp (l : List Char) : Bool :=
  isDateStr (l.take 10) &&
    match l.drop 10 with
    | [] => false
    | c :: rest =>
      (c == 'T') && isTimeStr rest.dropLast && (rest.getLast? == some 'Z')

/-! ## `AdaptiveThreadPool` (async_utils.py lines 12–36)

`submit` consults `has_idle_threads`:

    def has_idle_threads(self):
        if hasattr(self, '_idle_semaphore'):
            return self._idle_semaphore.acquire(timeout=0)
        num_threads = len(self._threads)
        return num_threads < self._max_workers

The relevant executor state is embedded explicitly: whether the Python
version's `ThreadPoolExecutor` exposes `_idle_semaphore` (CPython ≥ 3.8),
the semaphore's current value (the number of idle core threads),
`len(self._threads)` and `_max_workers` (which `__init__` sets to
`core_size`).  `Semaphore.acquire(timeout=0)` returns `True` and decrements
iff the value is positive, and never blocks. -/

structure PoolState where
  hasIdleSemaphore : Bool
  idlePermits : Nat
  numThreads : Nat
  core_size : Nat
deriving DecidableEq

/-- Where `submit` runs the task: the persistent core pool
(`super().submit`), or a brand-new one-shot worker thread
(`start_worker_thread`). -/
inductive SubmitTarget
  | persistent
  | transient
deriving DecidableEq

/-- The method `AdaptiveThreadPool.has_idle_threads`, returning the boolean together
with the executor state after the non-blocking semaphore acquire. -/
def has_idle_threads (s : PoolState) : Bool × PoolState :=
  if s.hasIdleSemaphore then
    if 0 < s.idlePermits then (true, { s with idlePermits := s.idlePermits - 1 })
    else (false, s)
  else (decide (s.numThreads < s.core_size), s)

/-- The method `AdaptiveThreadPool.submit`: dispatch to the core pool when
`has_idle_threads()` is true, otherwise spawn a transient worker thread; in
both branches a future is returned at once (the function is total and
contains no blocking operation). -/
def submit (s : PoolState) : SubmitTarget × PoolState :=
  let r := has_idle_threads s
  if r.1 then (SubmitTarget.persistent, r.2) else (SubmitTarget.transient, r.2)

/-- The claim's notion of "spare persistent capacity": an idle persistent
thread, or fewer live persistent threads than `core_size`. -/
def spareCapacity (s : PoolState) : Prop :=
  0 < s.idlePermits ∨ s.numThreads < s.core_size

instance (s : PoolState) : Decidable (spareCapacity s) := by
  unfold spareCapacity
  infer_instance

/-! ## `AsyncThread` (async_utils.py lines 47–76)

    def run_func(self, *args):
        loop = self.loop or ensure_event_loop()
        self.shutdown_event = asyncio.Event()
        if self.async_func_gen:
            async_func = self.async_func_gen(loop, self.shutdown_event)
            if async_func:
                loop.run_until_complete(async_func)
        loop.run_forever()

    def stop(self, quiet=None):
        if self.shutdown_event:
            self.shutdown_event.set()
            self.shutdown_event = None

The thread is embedded as a state machine.  `run_forever()` processes
scheduled callbacks until someone calls `loop.stop()`; nothing in this module
ever does, and `run_forever` performs no check of `shutdown_event`, so the
serving phase only steps to itself.  `stop` manipulates two distinct pieces
of state: the `Event` object's flag (which the initializer coroutine may
observe) and the `self.shutdown_event` attribute, which the first `stop`
resets to `None`. -/

/-- The phases of `run_func`: not yet started; running the optional
initializer under `run_until_complete`; inside `loop.run_forever()`; and the
`Terminated` state the specification describes (no transition of the code
ever reaches it). -/
inductive RunPhase
  | created
  | initRun
  | serving
  | terminated
deriving DecidableEq

structure AsyncThreadS where
  phase : RunPhase
  /-- the `asyncio.Event` object's internal flag, once created -/
  eventSet : Bool
  /-- whether the attribute `self.shutdown_event` currently holds the event
  (an `asyncio.Event` object is always truthy; the attribute is `None`
  before `run_func` runs and again after the first `stop`) -/
  fieldRef : Bool
deriving DecidableEq

/-- One step of the started thread: `run_func` entry creates a fresh unset
`Event` and stores it in the attribute; `run_until_complete` finishes and
`run_forever` begins; `run_forever` loops with no shutdown check. -/
def run_step (t : AsyncThreadS) : AsyncThreadS :=
  match t.phase with
  | RunPhase.created => { phase := RunPhase.initRun, eventSet := false, fieldRef := true }
  | RunPhase.initRun => { t with phase := RunPhase.serving }
  | RunPhase.serving => t
  | RunPhase.terminated => t

/-- The method `AsyncThread.stop`: if the attribute holds the event, set the event's
flag and clear the attribute; otherwise do nothing.  Total — no code path
raises. -/
def stop (t : AsyncThreadS) : AsyncThreadS :=
  if t.fieldRef then { t with eventSet := true, fieldRef := false } else t

/-! ## `receive_from_queue` (async_utils.py lines 107–119)

    def get():
        while True:
            try:
                if common.INFRA_STOPPED:
                    return
                return queue.get(timeout=1)
            except Exception:
                pass
    msg = await run_sync(get)
    return msg

`common.INFRA_STOPPED` is the process-wide stop flag (defined in
`localstack.utils.common`, read-only here).  Each loop iteration first reads
the flag; if it is clear, `queue.get(timeout=1)` either yields an item,
raises `queue.Empty` on timeout, or raises some genuine backing-store
exception — and the bare `except Exception: pass` catches *every*
`Exception` alike.  An iteration's retrieval behaviour is embedded as a
`GetOutcome`; the loop consumes one outcome per attempt. -/

/-- What one `queue.get(timeout=1)` call does. -/
inductive GetOutcome (α : Type)
  | timeout
  | item (x : α)
  | fault (e : Nat)
deriving DecidableEq

/-- The result of the polling call: still looping (attempt budget
exhausted), an `Exception` escaping to the Sync Bridge fault path, or a
returned value (`none` embeds Python's bare `return`, i.e. `None`). -/
inductive GetResult (α : Type)
  | running
  | faulted (e : Nat)
  | value (v : Option α)
deriving DecidableEq

/-- The inner `get()` retry loop, with a static stop flag and the successive
retrieval outcomes as the attempt budget. -/
def receive_get {α : Type} (stopped : Bool) : List (GetOutcome α) → GetResult α
  | [] => GetResult.running
  | o :: os =>
    if stopped then GetResult.value none
    else
      match o with
      | GetOutcome.item x => GetResult.value (some x)
      | GetOutcome.timeout => receive_get stopped os
      | GetOutcome.fault _ => receive_get stopped os

/-- The coroutine `receive_from_queue`: `run_sync` executes `get` on the worker pool and
the awaiting coroutine resumes with its result (re-raising a fault, were one
ever produced), so the call's outcome is exactly `get`'s. -/
def receive_from_queue {α : Type} (stopped : Bool) (os : List (GetOutcome α)) :
    GetResult α :=
  receive_get stopped os

/-! ## `get_named_event_loop` (async_utils.py lines 94–104)

    def get_named_event_loop(name):
        result = EVENT_LOOPS.get(name)
        if result:
            return result
        def async_func_gen(loop, shutdown_event):
            EVENT_LOOPS[name] = loop
        AsyncThread.run_async(async_func_gen)
        time.sleep(1)
        return EVENT_LOOPS[name]

Loop handles are embedded as opaque numeric identifiers (an event-loop
object is always truthy, so `if result:` succeeds exactly when the name is
registered).  A spawned thread whose initializer has not yet executed is a
*pending* registration; during the `time.sleep(1)` settle interval an
arbitrary, scheduler-chosen subset of the pending initializers runs (chosen
by a boolean mask), each recording `EVENT_LOOPS[name] = loop`.  The final
`EVENT_LOOPS[name]` is an unguarded subscript: absence raises `KeyError`,
embedded as the `Except.error` case. -/

structure RegState where
  /-- the module-global `EVENT_LOOPS` dict -/
  eventLoops : List (String × Nat)
  /-- spawned threads whose initializer (`EVENT_LOOPS[name] = loop`) has not
  run yet, in spawn order -/
  pending : List (String × Nat)
  /-- source of fresh loop identifiers -/
  nextId : Nat
deriving DecidableEq

/-- Run the mask-selected pending initializers (in order), each writing its
registry entry; unselected ones stay pending.  Returns the updated registry
and the remaining pending list. -/
def sleepFire : List (String × Nat) → List (String × Nat) → List Bool →
    List (String × Nat) × List (String × Nat)
  | loops, [], _ => (loops, [])
  | loops, p :: ps, [] =>
    let r := sleepFire loops ps []
    (r.1, p :: r.2)
  | loops, p :: ps, b :: bs =>
    if b then sleepFire (setAssoc loops p.1 p.2) ps bs
    else
      let r := sleepFire loops ps bs
      (r.1, p :: r.2)

/-- The function `get_named_event_loop`: fast path returns the registered handle and
leaves the state untouched; otherwise spawn a thread (a fresh pending
registration), sleep while the scheduler runs some pending initializers, and
read `EVENT_LOOPS[name]` unguarded. -/
def get_named_event_loop (s : RegState) (name : String) (mask : List Bool) :
    Except Unit Nat × RegState :=
  match lookupAssoc s.eventLoops name with
  | some l => (Except.ok l, s)
  | none =>
    let pending1 := s.pending ++ [(name, s.nextId)]
    let fired := sleepFire s.eventLoops pending1 mask
    let s' : RegState := ⟨fired.1, fired.2, s.nextId + 1⟩
    match lookupAssoc s'.eventLoops name with
    | some l => (Except.ok l, s')
    | none => (Except.error (), s')

/-! ## Helper lemmas -/

/-- The retry loop never produces a fault: `except Exception: pass` swallows
every exception a retrieval attempt raises. -/
theorem receive_get_ne_faulted {α : Type} (stopped : Bool)
    (os : List (GetOutcome α)) (e : Nat) :
    receive_get stopped os ≠ GetResult.faulted e := by
  induction os with
  | nil => simp [receive_get]
  | cons o os ih =>
    cases stopped
    · cases o <;> simp [receive_get, ih]
    · simp [receive_get]

/-- The serve loop `run_forever` is a fixpoint of the step function: it contains no check of
the shutdown event and this module never calls `loop.stop()`. -/
theorem run_step_serving (t : AsyncThreadS) (h : t.phase = RunPhase.serving) :
    run_step t = t := by
  unfold run_step
  rw [h]

/-- The method `stop` never changes the phase of the thread. -/
theorem stop_phase (t : AsyncThreadS) : (stop t).phase = t.phase := by
  unfold stop
  by_cases h : t.fieldRef <;> simp [h]

/-- Updating one key of an association list leaves the other keys' lookups
unchanged. -/
theorem lookupAssoc_setAssoc_ne {α : Type} (m : List (String × α)) (k' k : String)
    (v : α) (h : k' ≠ k) :
    lookupAssoc (setAssoc m k' v) k = lookupAssoc m k := by
  induction m with
  | nil => simp [setAssoc, lookupAssoc, h]
  | cons p m ih =>
    by_cases hk : p.1 = k'
    · simp [setAssoc, hk, lookupAssoc, h]
    · simp only [setAssoc, hk, if_neg, lookupAssoc, ih]

/-- Firing pending initializers none of which registers `k` neither changes
`EVENT_LOOPS[k]` nor leaves behind a pending registration of `k`. -/
theorem sleepFire_preserves (loops ps : List (String × Nat)) (mask : List Bool)
    (k : String) (h : ∀ p ∈ ps, p.1 ≠ k) :
    lookupAssoc (sleepFire loops ps mask).1 k = lookupAssoc loops k ∧
    ∀ p ∈ (sleepFire loops ps mask).2, p.1 ≠ k := by
  induction ps generalizing loops mask with
  | nil => cases mask <;> simp [sleepFire]
  | cons p ps ih =>
    have hp : p.1 ≠ k := h p (by simp)
    have hps : ∀ q ∈ ps, q.1 ≠ k := fun q hq => h q (by simp [hq])
    cases mask with
    | nil =>
      have := ih loops [] hps
      simpa [sleepFire, hp] using this
    | cons b bs =>
      by_cases hb : b
      · have := ih (setAssoc loops p.1 p.2) bs hps
        simpa [sleepFire, hb, lookupAssoc_setAssoc_ne loops p.1 k p.2 hp] using this
      · have := ih loops bs hps
        simpa [sleepFire, hb, hp] using this

/-- Firing pending initializers does not register `k` as long as every
pending entry whose key is `k` is left unfired by the mask. -/
theorem sleepFire_lookup_unfired (loops ps : List (String × Nat)) (mask : List Bool)
    (k : String)
    (h : ∀ i : Nat, (ps[i]?.map Prod.fst = some k) → mask.getD i false = false) :
    lookupAssoc (sleepFire loops ps mask).1 k = lookupAssoc loops k := by
  induction ps generalizing loops mask with
  | nil => cases mask <;> simp [sleepFire]
  | cons p ps ih =>
    cases mask with
    | nil =>
      have := ih loops [] (fun i _ => by simp)
      simpa [sleepFire] using this
    | cons b bs =>
      have hshift : ∀ i : Nat, (ps[i]?.map Prod.fst = some k) →
          bs.getD i false = false := by
        intro i hi
        have := h (i + 1) (by simpa using hi)
        simpa using this
      by_cases hb : b
      · have hp : p.1 ≠ k := by
          intro hpk
          have := h 0 (by simp [hpk])
          simp [hb] at this
        have := ih (setAssoc loops p.1 p.2) bs hshift
        rw [show sleepFire loops (p :: ps) (b :: bs)
            = sleepFire (setAssoc loops p.1 p.2) ps bs by simp [sleepFire, hb]]
        rw [this, lookupAssoc_setAssoc_ne loops p.1 k p.2 hp]
      · have := ih loops bs hshift
        simpa [sleepFire, hb] using this

/-- The fast path of `get_named_event_loop`: a registered (hence truthy)
handle is returned at once and nothing changes. -/
theorem get_named_fast (s : RegState) (name : String) (mask : List Bool) (l : Nat)
    (h : lookupAssoc s.eventLoops name = some l) :
    get_named_event_loop s name mask = (Except.ok l, s) := by
  unfold get_named_event_loop
  rw [h]

/-- The slow path's resulting state: the spawned registration appended to the
pending list, the mask-selected initializers fired. -/
theorem get_named_state_slow (s : RegState) (name : String) (mask : List Bool)
    (h : lookupAssoc s.eventLoops name = none) :
    (get_named_event_loop s name mask).2 =
      ⟨(sleepFire s.eventLoops (s.pending ++ [(name, s.nextId)]) mask).1,
       (sleepFire s.eventLoops (s.pending ++ [(name, s.nextId)]) mask).2,
       s.nextId + 1⟩ := by
  unfold get_named_event_loop
  rw [h]
  dsimp only
  split <;> rfl

/-- The slow path's result when the settle wait ends without the name
registered: the unguarded dict subscript raises `KeyError`. -/
theorem get_named_error_slow (s : RegState) (name : String) (mask : List Bool)
    (h : lookupAssoc s.eventLoops name = none)
    (h2 : lookupAssoc
      (sleepFire s.eventLoops (s.pending ++ [(name, s.nextId)]) mask).1 name
      = none) :
    (get_named_event_loop s name mask).1 = Except.error () := by
  unfold get_named_event_loop
  rw [h]
  dsimp only
  rw [h2]

/-! ## Helper lemmas for the response patcher -/

/-- A decimal digit is not Python whitespace. -/
theorem isDigit_not_pyWs (c : Char) (h : c.isDigit = true) : pyWs c = false := by
  simp only [Char.isDigit, Bool.and_eq_true, decide_eq_true_eq] at h
  obtain ⟨h1, h2⟩ := h
  have h1' : 48 ≤ c.toNat := h1
  have h2' : c.toNat ≤ 57 := h2
  unfold pyWs
  simp only [List.mem_cons, List.not_mem_nil, or_false, decide_eq_false_iff_not]
  push_neg
  omega

/-- A greedy character-class run over `l ++ r` is exactly `l` when every
character of `l` is in the class and the first character of `r` is not. -/
theorem takeWhile_all_not (P : Char → Bool) (l r : List Char)
    (hl : ∀ c ∈ l, P c = true)
    (hr : ∀ c cs, r = c :: cs → P c = false) :
    (l ++ r).takeWhile P = l ∧ (l ++ r).dropWhile P = r := by
  have ht : r.takeWhile P = [] := by
    cases r with
    | nil => rfl
    | cons c cs => simp [List.takeWhile, hr c cs rfl]
  have hd : r.dropWhile P = r := by
    cases r with
    | nil => rfl
    | cons c cs => simp [List.dropWhile, hr c cs rfl]
  constructor
  · rw [List.takeWhile_append_of_pos hl, ht, List.append_nil]
  · rw [List.dropWhile_append_of_pos hl, hd]

/-- A well-formed date consists of `[0-9-]` characters, has length 10 and
starts with a digit. -/
theorem isDateStr_all (d : List Char) (h : isDateStr d = true) :
    d.all isDateChar = true ∧ d.length = 10 ∧
      ∃ c cs, d = c :: cs ∧ c.isDigit = true := by
  unfold isDateStr at h
  split at h
  · next y1 y2 y3 y4 h1 m1 m2 h2 d1 d2 =>
    simp only [Bool.and_eq_true, beq_iff_eq] at h
    obtain ⟨⟨⟨⟨⟨⟨⟨⟨⟨hy1, hy2⟩, hy3⟩, hy4⟩, hh1⟩, hm1⟩, hm2⟩, hh2⟩, hd1⟩, hd2⟩ := h
    refine ⟨?_, rfl, y1, _, rfl, hy1⟩
    simp [List.all, isDateChar, hy1, hy2, hy3, hy4, hh1, hm1, hm2, hh2, hd1, hd2]
  · exact absurd h (by simp)

/-- A well-formed fractional part consists of `[0-9:.]` characters. -/
theorem fracOk_all (rest : List Char) (h : fracOk rest = true) :
    rest.all isTimeChar = true := by
  unfold fracOk at h
  split at h
  · rfl
  · next ds =>
    simp only [Bool.and_eq_true] at h
    refine List.all_eq_true.mpr ?_
    intro c hc
    rcases List.mem_cons.mp hc with rfl | hc2
    · rfl
    · have := List.all_eq_true.mp h.2 c hc2
      simp [isTimeChar, this]
  · exact absurd h (by simp)

/-- A well-formed time consists of `[0-9:.]` characters and starts with a
digit. -/
theorem isTimeStr_all (t : List Char) (h : isTimeStr t = true) :
    t.all isTimeChar = true ∧ ∃ c cs, t = c :: cs ∧ c.isDigit = true := by
  unfold isTimeStr at h
  split at h
  · next h1 h2 c1 m1 m2 c2 s1 s2 rest =>
    simp only [Bool.and_eq_true, beq_iff_eq] at h
    obtain ⟨⟨⟨⟨⟨⟨⟨⟨hh1, hh2⟩, hc1⟩, hm1⟩, hm2⟩, hc2⟩, hs1⟩, hs2⟩, hfrac⟩ := h
    refine ⟨?_, h1, _, rfl, hh1⟩
    simp [List.all_cons, isTimeChar, hh1, hh2, hc1, hm1, hm2, hc2, hs1, hs2,
      fracOk_all rest hfrac]
  · exact absurd h (by simp)

/-- Every list is a Boolean prefix of itself followed by anything. -/
theorem isPrefixOf_append_self (l r : List Char) : l.isPrefixOf (l ++ r) = true := by
  induction l with
  | nil => simp [List.isPrefixOf]
  | cons c l ih => simp [List.isPrefixOf, ih]

/-- At a `>` followed by a well-formed date, one space, a well-formed time
and an optional `Z` before the closing tag, the regex matches, captures
exactly the date and the time, and spans up to and including the closing
tag. -/
theorem matchAt_build (d t zs r : List Char)
    (hd : isDateStr d = true) (ht : isTimeStr t = true)
    (hz : zs = [] ∨ zs = ['Z']) :
    matchAt ('>' :: (d ++ ' ' :: (t ++ zs ++ tagChars ++ r)))
      = some (d, t, 2 + d.length + t.length + zs.length + tagChars.length) := by
  obtain ⟨hdall, hdlen, c0, cs0, hdc, hc0⟩ := isDateStr_all d hd
  obtain ⟨htall, c1, cs1, htc, hc1⟩ := isTimeStr_all t ht
  have hdigitall := List.all_eq_true.mp hdall
  have htimeall := List.all_eq_true.mp htall
  -- the leading whitespace run consumes nothing (d starts with a digit)
  have hws1 : List.takeWhile pyWs (d ++ ' ' :: (t ++ (zs ++ (tagChars ++ r)))) = [] := by
    rw [hdc]
    simp [List.takeWhile, isDigit_not_pyWs c0 hc0]
  have hws1' : List.dropWhile pyWs (d ++ ' ' :: (t ++ (zs ++ (tagChars ++ r))))
      = d ++ ' ' :: (t ++ (zs ++ (tagChars ++ r))) := by
    rw [hdc]
    simp [List.dropWhile, isDigit_not_pyWs c0 hc0]
  -- the date group [0-9-]+ is exactly d
  have hspan := takeWhile_all_not isDateChar d (' ' :: (t ++ (zs ++ (tagChars ++ r))))
    hdigitall (by intro c cs hcs; cases hcs; rfl)
  -- the time group [0-9:.]+ is exactly t
  have hznext : ∀ c cs, zs ++ (tagChars ++ r) = c :: cs → isTimeChar c = false := by
    rcases hz with rfl | rfl
    · intro c cs hcs
      rw [show ([] : List Char) ++ (tagChars ++ r) = '<' :: (['/', 'c', 'r', 'e', 'a',
        't', 'i', 'o', 'n', 'T', 'i', 'm', 'e', 's', 't', 'a', 'm', 'p', '>'] ++ r)
        from rfl] at hcs
      cases hcs
      rfl
    · intro c cs hcs
      cases hcs
      rfl
  have hspan2 := takeWhile_all_not isTimeChar t (zs ++ (tagChars ++ r))
    htimeall hznext
  have hde : d.isEmpty = false := by rw [hdc]; rfl
  have hte : t.isEmpty = false := by rw [htc]; rfl
  unfold matchAt
  simp only [List.append_assoc, if_true]
  rw [hws1, hws1', hspan.1, hspan.2]
  simp only [hde, Bool.false_eq_true, if_false, if_true]
  rw [hspan2.1, hspan2.2]
  simp only [hte, Bool.false_eq_true, if_false]
  rcases hz with rfl | rfl
  · rw [show ([] : List Char) ++ (tagChars ++ r) = '<' :: (['/', 'c', 'r', 'e', 'a',
      't', 'i', 'o', 'n', 'T', 'i', 'm', 'e', 's', 't', 'a', 'm', 'p', '>'] ++ r)
      from rfl]
    simp [isPrefixOf_append_self, tagChars, List.takeWhile, pyWs]
    omega
  · rw [show (['Z'] : List Char) ++ (tagChars ++ r) = 'Z' :: (tagChars ++ r) from rfl]
    simp [isPrefixOf_append_self, tagChars, List.takeWhile, pyWs]
    omega

/-- The scan's result does not depend on the fuel, as long as the fuel
bounds the length of the remaining input. -/
theorem subAllAux_congr (f1 : Nat) : ∀ (f2 : Nat) (s : List Char),
    s.length ≤ f1 → s.length ≤ f2 → subAllAux f1 s = subAllAux f2 s := by
  induction f1 with
  | zero =>
    intro f2 s h1 h2
    have hs : s = [] := List.eq_nil_of_length_eq_zero (by omega)
    subst hs
    cases f2 <;> rfl
  | succ f1 ih =>
    intro f2 s h1 h2
    cases s with
    | nil => cases f2 <;> rfl
    | cons c rest =>
      cases f2 with
      | zero => simp at h2
      | succ f2 =>
        simp only [List.length_cons] at h1 h2
        simp only [subAllAux]
        cases hm : matchAt (c :: rest) with
        | none =>
          dsimp only
          rw [ih f2 rest (by omega) (by omega)]
        | some v =>
          obtain ⟨d, t, n⟩ := v
          dsimp only
          rw [ih f2 (rest.drop (n - 1))
            (by have := List.length_drop (n - 1) rest; omega)
            (by have := List.length_drop (n - 1) rest; omega)]

theorem subAll_nil : subAll [] = [] := rfl

/-- The scan copies a character at which no match starts. -/
theorem subAll_cons_none (c : Char) (rest : List Char)
    (h : matchAt (c :: rest) = none) :
    subAll (c :: rest) = c :: subAll rest := by
  unfold subAll
  simp only [List.length_cons, subAllAux, h]

/-- At a match, the scan emits the replacement and resumes after the matched
span. -/
theorem subAll_cons_some (c : Char) (rest d t : List Char) (n : Nat)
    (h : matchAt (c :: rest) = some (d, t, n)) :
    subAll (c :: rest)
      = '>' :: (d ++ 'T' :: t ++ 'Z' :: tagChars) ++ subAll (rest.drop (n - 1)) := by
  unfold subAll
  simp only [List.length_cons, subAllAux, h]
  rw [subAllAux_congr rest.length (rest.drop (n - 1)).length (rest.drop (n - 1))
    (by have := List.length_drop (n - 1) rest; omega) (le_refl _)]

/-- A prefix inside which no match starts is copied verbatim. -/
theorem subAll_append_no_match (l rest : List Char)
    (h : ∀ p, p < l.length → matchAt ((l ++ rest).drop p) = none) :
    subAll (l ++ rest) = l ++ subAll rest := by
  induction l with
  | nil => simp
  | cons c l ih =>
    have h0 : matchAt (c :: (l ++ rest)) = none := by
      have := h 0 (by simp)
      simpa using this
    have ih' := ih (fun p hp => by
      have h2 := h (p + 1) (by simp only [List.length_cons]; omega)
      simpa [List.drop_succ_cons] using h2)
    rw [List.cons_append, subAll_cons_none _ _ h0, ih', List.cons_append]

/-- Content without any match is left unchanged by the substitution. -/
theorem subAll_eq_self (s : List Char) (h : hasMatch s = false) : subAll s = s := by
  induction s with
  | nil => rfl
  | cons c rest ih =>
    unfold hasMatch at h
    simp only [Bool.or_eq_false_iff] at h
    have h1 : matchAt (c :: rest) = none :=
      Option.not_isSome_iff_eq_none.mp (by simp [h.1])
    rw [subAll_cons_none _ _ h1, ih h.2]

/-- Gluing a date and a time with `T` and a final `Z` yields the
`YYYY-MM-DDTHH:MM:SS[.ffffff]Z` format. -/
theorem iso_build (d t : List Char) (hd : isDateStr d = true)
    (ht : isTimeStr t = true) :
    isIsoTimestamp (d ++ 'T' :: (t ++ ['Z'])) = true := by
  have hdlen := (isDateStr_all d hd).2.1
  unfold isIsoTimestamp
  rw [List.take_left' hdlen, List.drop_left' hdlen]
  simp [hd, ht, List.dropLast_concat, List.getLast?_concat]

/-- Writing a key of an association list makes its lookup return the written
value. -/
theorem lookupAssoc_setAssoc_self {α : Type} (m : List (String × α)) (k : String)
    (v : α) : lookupAssoc (setAssoc m k v) k = some v := by
  induction m with
  | nil => simp [setAssoc, lookupAssoc]
  | cons p m ih =>
    by_cases hk : p.1 = k
    · simp [setAssoc, hk, lookupAssoc]
    · simp [setAssoc, hk, lookupAssoc, ih]

/-- An ASCII character encodes to a single UTF-8 byte. -/
theorem charBytes_ascii (c : Char) (h : c.toNat < 128) : charBytes c = [c.toNat] := by
  unfold charBytes
  rw [if_pos (by omega)]

/-- All-ASCII text has as many UTF-8 bytes as characters. -/
theorem utf8Len_ascii (l : List Char) (h : ∀ c ∈ l, c.toNat < 128) :
    utf8Len l = l.length := by
  induction l with
  | nil => rfl
  | cons c cs ih =>
    unfold utf8Len utf8Encode at *
    rw [List.flatMap_cons, List.length_append, charBytes_ascii c (h c (by simp)),
      ih (fun c hc => h c (by simp [hc]))]
    simp only [List.length_cons, List.length_nil]
    omega

/-! ## Claims C1–C3 -/

/-- C1: a response whose decoded content contains an occurrence of the
`creationTimestamp` pattern — content between a `>` and the closing
`</creationTimestamp>` tag consisting of a date, a single space, and a time
optionally carrying fractional seconds and/or a trailing `Z` — has every
such match replaced by `fix_creation_date` with date + `T` + time + `Z`
(exactly one trailing `Z` whether or not the source had one), the rewritten
timestamp field matching `YYYY-MM-DDTHH:MM:SS[.ffffff]Z`; the remainder of
the content is processed recursively, so every further match is replaced the
same way. -/
theorem c1_creation_timestamp_rewritten (resp : Response) (l d t zs r : List Char)
    (hc : resp._content = l ++ '>' :: (d ++ ' ' :: (t ++ zs ++ tagChars ++ r)))
    (hd : isDateStr d = true) (ht : isTimeStr t = true)
    (hz : zs = [] ∨ zs = ['Z'])
    (hl : ∀ p, p < l.length → matchAt (resp._content.drop p) = none) :
    (fix_creation_date resp)._content
      = l ++ '>' :: (d ++ 'T' :: t ++ 'Z' :: tagChars) ++ subAll r
    ∧ isIsoTimestamp (d ++ 'T' :: (t ++ ['Z'])) = true := by
  refine ⟨?_, iso_build d t hd ht⟩
  have hcontent : (fix_creation_date resp)._content = subAll resp._content := rfl
  rw [hcontent, hc] at *
  rw [subAll_append_no_match l _ hl]
  rw [subAll_cons_some '>' _ d t _ (matchAt_build d t zs r hd ht hz)]
  have hdrop : (d ++ ' ' :: (t ++ zs ++ tagChars ++ r)).drop
      (2 + d.length + t.length + zs.length + tagChars.length - 1) = r := by
    rw [show d ++ ' ' :: (t ++ zs ++ tagChars ++ r)
        = (d ++ ' ' :: (t ++ zs ++ tagChars)) ++ r by simp [List.append_assoc]]
    refine List.drop_left' ?_
    simp only [List.length_append, List.length_cons]
    omega
  rw [hdrop]
  simp [List.cons_append]

def c1l : List Char := "<x><creationTimestamp".toList

def c1d : List Char := "2020-01-01".toList

def c1t : List Char := "10:00:00".toList

def c1r : List Char := "</x>".toList

/-- C1 witness: the specification's own example,
`<creationTimestamp>2020-01-01 10:00:00Z</creationTimestamp>`, rewritten to
`<creationTimestamp>2020-01-01T10:00:00Z</creationTimestamp>`. -/
theorem c1_witness :
    (fix_creation_date
        ⟨c1l ++ '>' :: (c1d ++ ' ' :: (c1t ++ ['Z'] ++ tagChars ++ c1r)), []⟩)._content
      = c1l ++ '>' :: (c1d ++ 'T' :: c1t ++ 'Z' :: tagChars) ++ subAll c1r
    ∧ isIsoTimestamp (c1d ++ 'T' :: (c1t ++ ['Z'])) = true :=
  c1_creation_timestamp_rewritten
    ⟨c1l ++ '>' :: (c1d ++ ' ' :: (c1t ++ ['Z'] ++ tagChars ++ c1r)), []⟩
    c1l c1d c1t ['Z'] c1r rfl (by decide) (by decide) (Or.inr rfl) (by decide)

/-- C2 counterexample: the one-character content `é` (two UTF-8 bytes)
contains no pattern; `fix_creation_date` sets `Content-Length` to
`str(len(content))`, the *character* count `"1"`, while the byte length of
the rewritten content is 2. -/
theorem c2_counterexample :
    lookupAssoc (fix_creation_date ⟨['é'], []⟩).headers "Content-Length" = some "1" ∧
    utf8Len (fix_creation_date ⟨['é'], []⟩)._content = 2 ∧
    ("1" : String) ≠ toString (2 : Nat) := by
  refine ⟨by decide, by decide, by decide⟩

/-- C2 (amended): after `fix_creation_date` runs on a response whose content
decodes successfully, the `Content-Length` header equals the *number of
characters* of the rewritten content (Python's `len` on the decoded string);
this equals the byte length of the rewritten content exactly when the
content is all-ASCII. -/
theorem c2_content_length_characters (resp : Response) :
    lookupAssoc (fix_creation_date resp).headers "Content-Length"
      = some (toString (fix_creation_date resp)._content.length) ∧
    ((∀ c ∈ (fix_creation_date resp)._content, c.toNat < 128) →
      utf8Len (fix_creation_date resp)._content
        = (fix_creation_date resp)._content.length) := by
  constructor
  · exact lookupAssoc_setAssoc_self resp.headers "Content-Length" _
  · intro h
    exact utf8Len_ascii _ h

/-- C2 witness: the amended statement evaluated at the specification's
example response, whose content is all-ASCII. -/
theorem c2_witness :
    lookupAssoc (fix_creation_date ⟨"<creationTimestamp>2020-01-01 10:00:00Z</creationTimestamp>".toList, []⟩).headers "Content-Length"
      = some (toString (fix_creation_date ⟨"<creationTimestamp>2020-01-01 10:00:00Z</creationTimestamp>".toList, []⟩)._content.length) ∧
    utf8Len (fix_creation_date ⟨"<creationTimestamp>2020-01-01 10:00:00Z</creationTimestamp>".toList, []⟩)._content
      = (fix_creation_date ⟨"<creationTimestamp>2020-01-01 10:00:00Z</creationTimestamp>".toList, []⟩)._content.length := by
  have h := c2_content_length_characters
    ⟨"<creationTimestamp>2020-01-01 10:00:00Z</creationTimestamp>".toList, []⟩
  exact ⟨h.1, h.2 (by decide)⟩

/-- C3: a response whose decoded content contains no occurrence of the
`creationTimestamp` pattern keeps its content byte-identical under
`fix_creation_date`: the decoded text is returned unchanged, hence its UTF-8
encoding as well. -/
theorem c3_no_match_passthrough (resp : Response)
    (h : hasMatch resp._content = false) :
    (fix_creation_date resp)._content = resp._content ∧
    utf8Encode (fix_creation_date resp)._content = utf8Encode resp._content := by
  have h1 : (fix_creation_date resp)._content = subAll resp._content := rfl
  rw [h1, subAll_eq_self _ h]
  exact ⟨rfl, rfl⟩

/-- C3 witness: content without the pattern passes through unchanged. -/
theorem c3_witness :
    (fix_creation_date ⟨"<a>no timestamps here</a>".toList, []⟩)._content
      = "<a>no timestamps here</a>".toList ∧
    utf8Encode (fix_creation_date ⟨"<a>no timestamps here</a>".toList, []⟩)._content
      = utf8Encode "<a>no timestamps here</a>".toList :=
  c3_no_match_passthrough ⟨"<a>no timestamps here</a>".toList, []⟩ (by decide)

/-! ## Claims C4–C10 -/

/-- C4 counterexample: a freshly constructed pool on a Python with
`_idle_semaphore` (zero live threads, zero idle permits, `core_size` 30) has
spare persistent capacity in the claim's sense — fewer live persistent
threads than `core_size` — yet `submit` creates a transient one-shot thread
instead of handing the task to the persistent pool. -/
theorem c4_counterexample :
    spareCapacity ⟨true, 0, 0, 30⟩ ∧
    (submit ⟨true, 0, 0, 30⟩).1 = SubmitTarget.transient ∧
    SubmitTarget.transient ≠ SubmitTarget.persistent := by
  refine ⟨Or.inr (by decide), by decide, by decide⟩

/-- C4 (amended): `submit` hands the task to the persistent pool exactly when
`has_idle_threads()` is true — with an `_idle_semaphore` (CPython ≥ 3.8), iff
an idle permit is immediately available; without one, iff there are fewer
live threads than `core_size`.  Otherwise a transient one-shot thread runs
the task.  In both branches the dispatch is a total computation returning a
future: `submit` never blocks the caller. -/
theorem c4_submit_dispatch (s : PoolState) :
    ((submit s).1 = SubmitTarget.persistent ↔
      (if s.hasIdleSemaphore then 0 < s.idlePermits
       else s.numThreads < s.core_size)) ∧
    ((submit s).1 = SubmitTarget.persistent ∨ (submit s).1 = SubmitTarget.transient) := by
  unfold submit has_idle_threads
  by_cases h : s.hasIdleSemaphore
  · by_cases hi : 0 < s.idlePermits <;> simp [h, hi]
  · by_cases hn : s.numThreads < s.core_size <;> simp [h, hn]

/-- C5 counterexample: with the global stop flag set and an item already
enqueued, `receive_from_queue` returns the absent result (`None`), not the
enqueued item: the flag check precedes and pre-empts the retrieval. -/
theorem c5_counterexample :
    receive_from_queue true [GetOutcome.item (5 : Nat)] = GetResult.value none ∧
    GetResult.value none ≠ GetResult.value (some (5 : Nat)) := by
  exact ⟨rfl, by decide⟩

/-- C5 (amended): the global stop flag is checked before each retrieval
attempt; whenever it is set the call returns an absent result immediately —
regardless of the queue's contents — without attempting retrieval and
without raising; and when an item was enqueued before the call *and the stop
flag is not set*, that item is returned as a present result. -/
theorem c5_stop_flag_and_item {α : Type} (o : GetOutcome α)
    (os os' : List (GetOutcome α)) (x : α) :
    receive_from_queue true (o :: os) = GetResult.value none ∧
    receive_from_queue false (GetOutcome.item x :: os') = GetResult.value (some x) := by
  exact ⟨rfl, rfl⟩

/-- C6 counterexample: a serving Supervised Loop Thread on which `stop()` has
been called is still serving after its next step (and any further ones): the
serve loop performs no check of the shutdown signal, so it never transitions
to `Terminated`. -/
theorem c6_counterexample :
    (run_step^[5] (stop ⟨RunPhase.serving, false, true⟩)).phase = RunPhase.serving ∧
    RunPhase.serving ≠ RunPhase.terminated := by
  exact ⟨rfl, by decide⟩

/-- C6 (amended): after the first call to `stop()` the shutdown signal is
set, but the serve loop (`loop.run_forever()`) contains no check of it: the
thread remains in the serving state at every subsequent step and never
transitions to `Terminated`. -/
theorem c6_stop_never_observed (t : AsyncThreadS)
    (h : t.phase = RunPhase.serving) (n : Nat) :
    (run_step^[n] (stop t)).phase = RunPhase.serving ∧
    (stop t).eventSet = (t.fieldRef || t.eventSet) := by
  constructor
  · have hphase : (stop t).phase = RunPhase.serving := by rw [stop_phase, h]
    rw [Function.iterate_fixed (run_step_serving _ hphase)]
    exact hphase
  · unfold stop
    by_cases hf : t.fieldRef <;> simp [hf]

/-- C6 witness: the amended statement at a concrete serving thread, five
steps of the serve loop after `stop()`. -/
theorem c6_witness :
    (run_step^[5] (stop ⟨RunPhase.serving, false, true⟩)).phase = RunPhase.serving ∧
    (stop ⟨RunPhase.serving, false, true⟩).eventSet = (true || false) :=
  c6_stop_never_observed ⟨RunPhase.serving, false, true⟩ rfl 5

/-- C7 counterexample: a genuine backing-store fault on the first retrieval
attempt is swallowed by the bare `except Exception: pass` and merely triggers
the next retry, which returns the next item; the fault does not propagate
through the Sync Bridge fault path. -/
theorem c7_counterexample :
    receive_from_queue false [GetOutcome.fault 3, GetOutcome.item (5 : Nat)]
      = GetResult.value (some 5) ∧
    GetResult.value (some (5 : Nat)) ≠ GetResult.faulted 3 := by
  exact ⟨rfl, by decide⟩

/-- C7 (amended): a per-attempt timeout is not an error and triggers the next
retry — but so does *every* exception the retrieval raises: the bare
`except Exception: pass` catches genuine queue/backing-store faults as well,
so no fault ever propagates to the caller through the Sync Bridge fault
path. -/
theorem c7_every_exception_retries {α : Type} (os os' os'' : List (GetOutcome α))
    (e e' : Nat) (stopped : Bool) :
    receive_from_queue false (GetOutcome.timeout :: os) = receive_from_queue false os ∧
    receive_from_queue false (GetOutcome.fault e :: os') = receive_from_queue false os' ∧
    receive_from_queue stopped os'' ≠ GetResult.faulted e' := by
  exact ⟨rfl, rfl, receive_get_ne_faulted stopped os'' e'⟩

/-- C8: `stop()` is idempotent — a second call is the identity on the thread
state; it sets the shutdown signal whenever one is pending (the
`shutdown_event` attribute holds the event), in particular when it is not
already set; it is a no-op when no signal is pending (the attribute is
`None`); and the shutdown signal, once set, is never reset by `stop`
(one-way false-to-true transition).  `stop` is a total function: no code
path of it raises, so calling it twice never faults. -/
theorem c8_stop_idempotent (t : AsyncThreadS) :
    stop (stop t) = stop t ∧
    (t.fieldRef = true → (stop t).eventSet = true) ∧
    (t.fieldRef = false → stop t = t) ∧
    (t.eventSet = true → (stop t).eventSet = true) := by
  unfold stop
  by_cases h : t.fieldRef <;> simp [h]

/-- C9: a registered name is returned immediately with no spawn and no state
change; and once a name is registered and no pending (still-unregistered)
spawn for it remains — the situation after the settle interval of its first
registration — every later call, for this or any other name and under any
scheduling of pending initializers, leaves its registration unchanged, so
the name's handle is stable. -/
theorem c9_registered_name_stable (s : RegState) (name n' : String) (l : Nat)
    (mask : List Bool)
    (hreg : lookupAssoc s.eventLoops name = some l)
    (hpend : ∀ p ∈ s.pending, p.1 ≠ name) :
    get_named_event_loop s name mask = (Except.ok l, s) ∧
    lookupAssoc (get_named_event_loop s n' mask).2.eventLoops name = some l ∧
    ∀ p ∈ (get_named_event_loop s n' mask).2.pending, p.1 ≠ name := by
  refine ⟨get_named_fast s name mask l hreg, ?_⟩
  cases hn' : lookupAssoc s.eventLoops n' with
  | some l' =>
    rw [get_named_fast s n' mask l' hn']
    exact ⟨hreg, hpend⟩
  | none =>
    have hname : n' ≠ name := by
      intro hEq
      rw [hEq, hreg] at hn'
      exact Option.noConfusion hn'
    have hall : ∀ p ∈ s.pending ++ [(n', s.nextId)], p.1 ≠ name := by
      intro p hp
      rcases List.mem_append.mp hp with h1 | h1
      · exact hpend p h1
      · rw [List.mem_singleton.mp h1]
        exact hname
    have hfire := sleepFire_preserves s.eventLoops (s.pending ++ [(n', s.nextId)])
      mask name hall
    rw [get_named_state_slow s n' mask hn']
    exact ⟨by rw [hfire.1]; exact hreg, hfire.2⟩

/-- C9 witness: the claim at a concrete registry holding "db", queried for
"db" and then for a fresh name "sqs" with the spawned initializer firing. -/
theorem c9_witness :
    get_named_event_loop ⟨[("db", 7)], [], 1⟩ "db" [true]
      = (Except.ok 7, ⟨[("db", 7)], [], 1⟩) ∧
    lookupAssoc (get_named_event_loop ⟨[("db", 7)], [], 1⟩ "sqs" [true]).2.eventLoops "db"
      = some 7 ∧
    ∀ p ∈ (get_named_event_loop ⟨[("db", 7)], [], 1⟩ "sqs" [true]).2.pending,
      p.1 ≠ "db" :=
  c9_registered_name_stable ⟨[("db", 7)], [], 1⟩ "db" "sqs" 7 [true] (by decide)
    (by simp)

/-- C10: calling `get_named_event_loop` for an unregistered name when the
spawned loop thread (and no other pending spawn that would register the
name) does not record its registry entry before the one-second settle wait
ends makes the final unguarded `EVENT_LOOPS[name]` raise a key-lookup error
instead of returning a loop handle. -/
theorem c10_unguarded_lookup_raises (s : RegState) (name : String)
    (mask : List Bool)
    (hreg : lookupAssoc s.eventLoops name = none)
    (hpend : ∀ p ∈ s.pending, p.1 ≠ name)
    (hmask : mask.getD s.pending.length false = false) :
    (get_named_event_loop s name mask).1 = Except.error () := by
  have hunfired : ∀ i : Nat,
      ((s.pending ++ [(name, s.nextId)])[i]?.map Prod.fst = some name) →
      mask.getD i false = false := by
    intro i hi
    by_cases hlt : i < s.pending.length
    · exfalso
      rw [List.getElem?_append_left hlt, List.getElem?_eq_getElem hlt] at hi
      have hne := hpend _ (List.getElem_mem hlt)
      simp only [Option.map_some', Option.some.injEq] at hi
      exact hne hi
    · by_cases heq : i = s.pending.length
      · rw [heq]
        exact hmask
      · exfalso
        have hge : (s.pending ++ [(name, s.nextId)]).length ≤ i := by
          simp only [List.length_append, List.length_cons, List.length_nil]
          omega
        rw [List.getElem?_eq_none hge] at hi
        simp at hi
  have hnone := sleepFire_lookup_unfired s.eventLoops
    (s.pending ++ [(name, s.nextId)]) mask name hunfired
  exact get_named_error_slow s name mask hreg (by rw [hnone]; exact hreg)

/-- C10 witness: an empty registry queried for "db" with the spawned thread
not scheduled during the settle second: the call raises. -/
theorem c10_witness :
    (get_named_event_loop ⟨[], [], 0⟩ "db" []).1 = Except.error () :=
  c10_unguarded_lookup_raises ⟨[], [], 0⟩ "db" [] (by decide) (by simp) (by decide)

end Localstack
